import Mathlib

/-!
Verification of `cursor_rules_setup.py`, a script that creates the directory
`.cursor/rules` (with parents, `exist_ok=True`) and writes one text file per
entry of a hardcoded dictionary `rules`, each file consisting of a
`Rule Type:` header, optional `File Pattern Matches:` and `Description:`
headers, and a raw content body; finally it prints a success message.

The embedding models the filesystem as a pair of maps (directories present,
file contents), the write loop as a recursion over the ordered association
list corresponding to the Python dict (insertion order), and possible write
failures by an oracle `wr : String → Bool` saying whether opening a given
path for writing succeeds (an uncaught `OSError` in Python aborts the loop
and terminates the process with a non-zero status).
-/

/-- One entry of the `rules` dictionary: `rule_type` and `content` are always
present; `file_patterns` and `description` are optional keys. -/
structure RuleRecord where
  rule_type : String
  file_patterns : Option (List String) := none
  description : Option String := none
  content : String
deriving DecidableEq, Repr

/-- The bytes the loop body writes for one record: the four `f.write` calls of
the source concatenated (`f"Rule Type: {rule_type}\n\n"`, the optional
`f"File Pattern Matches: {', '.join(...)}\n\n"`, the optional
`f"Description: {...}\n\n"`, then `rule["content"]` verbatim). -/
def renderRule (r : RuleRecord) : String :=
  ("Rule Type: " ++ r.rule_type ++ "\n\n")
  ++ (match r.file_patterns with
      | some ps => "File Pattern Matches: " ++ String.intercalate ", " ps ++ "\n\n"
      | none => "")
  ++ (match r.description with
      | some d => "Description: " ++ d ++ "\n\n"
      | none => "")
  ++ r.content

/-- Modelled from the spec §4.1: the exact file layout stated there — line
`Rule Type: <rule_type>` followed by a blank line; if `file_patterns` present,
line `File Pattern Matches: <comma-and-space-joined patterns>` followed by a
blank line; if `description` present, line `Description: <description>`
followed by a blank line; then the raw `content` string verbatim. Kept as a
separate definition so the source's write sequence can be compared to it. -/
def specLayout (r : RuleRecord) : String :=
  "Rule Type: " ++ r.rule_type ++ "\n" ++ "\n"
  ++ (match r.file_patterns with
      | some ps => "File Pattern Matches: " ++ String.intercalate ", " ps ++ "\n" ++ "\n"
      | none => "")
  ++ (match r.description with
      | some d => "Description: " ++ d ++ "\n" ++ "\n"
      | none => "")
  ++ r.content

/-- Filesystem state: which directories exist and what content each file has. -/
structure FS where
  dirs : String → Bool
  files : String → Option String

/-- Opening a path with mode `"w"` and writing `c`: unconditionally replaces
whatever was at `p` before. -/
def FS.write (fs : FS) (p c : String) : FS :=
  { fs with files := fun q => if q = p then some c else fs.files q }

/-- Reading a file's content, `none` when no file exists at the path. -/
def FS.read (fs : FS) (p : String) : Option String :=
  fs.files p

/-- An initial filesystem with no directories and no files. -/
def emptyFS : FS :=
  { dirs := fun _ => false, files := fun _ => none }

/-- Split a character list at every `/`, keeping empty components, as
`str.split("/")` does (`""` gives `[""]`). -/
def splitSlash : List Char → List (List Char)
  | [] => [[]]
  | c :: rest =>
    let r := splitSlash rest
    if c = '/' then [] :: r
    else
      match r with
      | [] => [[c]]
      | h :: t2 => (c :: h) :: t2

/-- The chain of directories `os.makedirs` creates for a relative path:
every prefix of the `/`-separated components, ending with the path itself
(for `".cursor/rules"`: `".cursor"` then `".cursor/rules"`). -/
def pathAncestors (p : String) : List String :=
  let parts := (splitSlash p.data).map String.mk
  (List.range parts.length).map (fun i => String.intercalate "/" (parts.take (i + 1)))

/-- `os.makedirs(p, exist_ok=True)`: ensures `p` and all its missing parents
exist; never fails, and changes nothing else. -/
def makedirs (fs : FS) (p : String) : FS :=
  { fs with dirs := fun d => fs.dirs d || decide (d ∈ pathAncestors p) }

/-- `s` starts with the separator character `/` (i.e. is an absolute path). -/
def startsWithSlash (s : String) : Bool :=
  match s.data with
  | [] => false
  | c :: _ => c == '/'

/-- `s` ends with the separator character `/`. -/
def endsWithSlash (s : String) : Bool :=
  s.data.getLast? == some '/'

/-- `os.path.join(a, b)`: `b` alone when `a` is empty or `b` is absolute,
otherwise `a` and `b` glued with a single `/` separator. -/
def pathJoin (a b : String) : String :=
  if a = "" then b
  else if startsWithSlash b then b
  else if endsWithSlash a then a ++ b
  else a ++ "/" ++ b

/-- The `for filename, rule in rules.items()` loop: for each entry, if opening
`os.path.join(dir, filename)` for writing succeeds (oracle `wr`), write the
rendered bytes and continue; on the first failure stop at once, leaving the
state as it was before the failing write, and report the offending path.
On success the `Nat` counts the files written. -/
def emitLoop (wr : String → Bool) (dir : String) :
    List (String × RuleRecord) → FS → FS × Except String Nat
  | [], fs => (fs, Except.ok 0)
  | (name, r) :: rest, fs =>
    if wr (pathJoin dir name) = true then
      match emitLoop wr dir rest (fs.write (pathJoin dir name) (renderRule r)) with
      | (fs2, Except.ok m) => (fs2, Except.ok (m + 1))
      | (fs2, Except.error e) => (fs2, Except.error e)
    else (fs, Except.error (pathJoin dir name))

/-- The whole emission: `os.makedirs(dir, exist_ok=True)` first, then the
write loop over the table. -/
def emit (wr : String → Bool) (dir : String) (t : List (String × RuleRecord))
    (fs : FS) : FS × Except String Nat :=
  emitLoop wr dir t (makedirs fs dir)

/-- Pure description of what a fully successful loop does to the state:
write every entry in order. -/
def writeAll (dir : String) : List (String × RuleRecord) → FS → FS
  | [], fs => fs
  | (name, r) :: rest, fs =>
    writeAll dir rest (fs.write (pathJoin dir name) (renderRule r))

/-- The content of the chronologically last write the table performs at
path `q`, if any: later entries overwrite earlier ones. -/
def lastWrite (dir : String) (t : List (String × RuleRecord)) (q : String) :
    Option String :=
  match t with
  | [] => none
  | (name, r) :: rest =>
    match lastWrite dir rest q with
    | some c => some c
    | none => if pathJoin dir name = q then some (renderRule r) else none

/-- `rules_dir = ".cursor/rules"`, the module-level target directory. -/
def rules_dir : String := ".cursor/rules"

/-- The hardcoded `rules` dictionary, as the ordered association list Python
iterates over (dict insertion order). -/
def rulesList : List (String × RuleRecord) :=
  [ ("always.mdc",
     { rule_type := "Always",
       content := "# Always Rules\n\nThese rules apply to every task, no exceptions.\n\n## Stay Focused on the Task\n- Work **only** on the specific task at hand; do not go out of scope.\n\n## Preserve Established Patterns\n- Do not modify workflows, structures, or conventions unless absolutely necessary.\n\n## Avoid Duplication\n- Before writing new code, check for existing functions that accomplish the same goal.\n- Identify and clean up redundant or duplicate code.\n\n## Enforce Code Cleanliness\n- Refactor bloated files and avoid functions longer than **300 lines**.\n- Ensure modularity for maintainability.\n\n## Commit & Document Work Often\n- Make **incremental commits** with clear, structured commit messages.\n- Keep local files organized to track project progress.\n\n## Keep Solutions Simple\n- Avoid over-engineering; prioritize clarity and efficiency.\n" }),
    ("testing.mdc",
     { rule_type := "Always",
       file_patterns := some ["*_test.py", "tests/**", "*.spec.tsx"],
       content := "# Testing Rules\n\nThese rules ensure every task is validated with proper testing.\n\n## Plan Testing Before Development\n- Define **unit tests** and **end-to-end tests** before coding.\n- Identify edge cases, failure scenarios, and performance limits.\n\n## Execute Tests to Prove Work is Complete\n- Run all relevant tests before submitting a task.\n- Ensure no regressions or breakages.\n\n## Unit Testing Best Practices\n- Cover core logic and edge cases.\n- Use the right frameworks:\n  - **Flask/Python:** `pytest`\n  - **LWC:** Jest\n  - **React Native:** React Testing Library + Jest\n\n## End-to-End Testing Guidelines\n- Test complete workflows for real-world validation.\n- Automate tests using **Selenium, Cypress, or Playwright**.\n\n## Maintain Test Quality\n- Prioritize meaningful test cases over sheer quantity.\n- Add new test cases for any discovered bugs.\n" }),
    ("git-rules.mdc",
     { rule_type := "Auto Attached",
       file_patterns := some ["*.sh", "*.gitignore", ".cursor/config.json"],
       content := "# Git & Repository Management Rules\n\n## Every Project Must Have a GitHub Repository\n- If no repository exists, create a **new public GitHub repo**.\n- Store repository details in a **standardized location** for reference.\n\n## Commit Often with Detailed Notes\n- Use structured commit messages:\n  - **Feature Addition:** `feat: Added [feature]`\n  - **Bug Fix:** `fix: Resolved [issue]`\n  - **Refactor:** `refactor: Improved [module]`\n\n## Automate Repository Setup\n- Initialize Git (`git init`) if needed.\n- Add a **`.gitignore`** file.\n- Push an initial commit with a **`README.md`**.\n\n## Branching Best Practices\n- Use **feature branches** for new work.\n- Merge via **pull requests** (PRs), not direct commits.\n" }),
    ("build-planning.mdc",
     { rule_type := "Auto Attached",
       file_patterns := some ["docs/*.md", "plans/*.json"],
       content := "# Build Planning Rules\n\nThese rules ensure agents create structured project plans.\n\n## Map Out a Build Plan\n- Before coding, generate a **clear build plan** outlining:\n  - Features to be developed.\n  - Dependencies and integrations.\n  - Expected output.\n\n## Store and Catalog Plans\n- Plans should be **saved locally** and easily accessible by agents.\n- Completed plans should be cataloged for reference.\n\n## Break Plans Into Daily Goals\n- Tasks should be **divided into actionable goals**.\n- Reference previous work to ensure continuity.\n" }),
    ("context-passing.mdc",
     { rule_type := "Auto Attached",
       file_patterns := some ["*.md", "context/*.json"],
       content := "# Context Passing Rules\n\nEnsures smooth transitions between agents due to tool limitations.\n\n## Efficiently Pass Context\n- After **25 tool calls**, wrap up and generate a **handoff prompt**.\n- Store key progress details in an **accessible location**.\n\n## Automate Context Retention\n- Use an **indexing system** to allow agents to search previous work.\n- Prioritize **important decisions** in context notes.\n\n## Standardize Handoff Prompts\n- Clearly state what has been completed and **next steps** for the next agent.\n- Include **relevant files, APIs, or database updates**.\n" }),
    ("manual.mdc",
     { rule_type := "Manual",
       content := "# Manual Rules\n\nThese rules apply when manually activated.\n\n## Refactoring & Optimization\n- Break down large functions into **smaller, reusable modules**.\n- Apply **performance improvements** only when requested.\n\n## Deep Code Review & Debugging\n- Conduct **in-depth reviews** beyond automated linting.\n- Debug tricky issues with **additional logging and tracing**.\n\n## Custom Implementations\n- Write specialized solutions only **when standard approaches won\x27t work**.\n" }),
    ("agent-requested.mdc",
     { rule_type := "Agent Requested",
       description := some "Use when a task requires alternative approaches, deep optimizations, or refactoring guidance.",
       content := "# Agent Requested Rules\n\nThese rules apply only when explicitly requested.\n\n## Suggest Alternative Approaches\n- Provide multiple ways to solve a problem, with trade-offs.\n\n## Optimize for Learning\n- Explain technical decisions in **clear, concise terms**.\n\n## Review & Improve Existing Code\n- Identify areas for **refactoring** or **improvement** without assuming changes are needed.\n\n## Provide a First Draft Before Finalizing\n- For complex work, generate a **draft version** before completing the full implementation.\n" }) ]

/-- Observable outcome of one run of the script: final filesystem, the lines
printed to standard output, and the process exit status. -/
structure RunResult where
  fs : FS
  stdout : List String
  exitCode : Nat

/-- The whole script: `makedirs`, the emission loop over the hardcoded table,
then on success `print(f"✅ Successfully created rule files in {rules_dir}")`
and exit status 0; an uncaught write error prints nothing to standard output
and the process exits with a non-zero status. -/
def runScript (wr : String → Bool) (fs : FS) : RunResult :=
  match emit wr rules_dir rulesList fs with
  | (fs2, Except.ok _) =>
    { fs := fs2,
      stdout := ["✅ Successfully created rule files in " ++ rules_dir],
      exitCode := 0 }
  | (fs2, Except.error _) => { fs := fs2, stdout := [], exitCode := 1 }

/-- `s` ends with a newline character. -/
def endsWithNL (s : String) : Bool :=
  s.data.getLast? == some '\n'

set_option maxRecDepth 40000

/-! ### Helper lemmas about the write loop -/

theorem writeAll_dirs (dir : String) (t : List (String × RuleRecord)) (fs : FS) :
    (writeAll dir t fs).dirs = fs.dirs := by
  induction t generalizing fs with
  | nil => rfl
  | cons p rest ih =>
    obtain ⟨name, r⟩ := p
    simpa [writeAll, FS.write] using ih (fs.write (pathJoin dir name) (renderRule r))

theorem emitLoop_fst_dirs (wr : String → Bool) (dir : String)
    (t : List (String × RuleRecord)) (fs : FS) :
    (emitLoop wr dir t fs).1.dirs = fs.dirs := by
  induction t generalizing fs with
  | nil => rfl
  | cons p rest ih =>
    obtain ⟨name, r⟩ := p
    simp only [emitLoop]
    by_cases h : wr (pathJoin dir name) = true
    · rw [if_pos h]
      have := ih (fs.write (pathJoin dir name) (renderRule r))
      rcases hrec : emitLoop wr dir rest (fs.write (pathJoin dir name) (renderRule r)) with ⟨fs2, res⟩
      rw [hrec] at this
      cases res with
      | ok m => simpa [FS.write] using this
      | error e => simpa [FS.write] using this
    · rw [if_neg h]

theorem writeAll_files_eq (dir : String) (t : List (String × RuleRecord))
    (fs : FS) (q : String) :
    (writeAll dir t fs).files q =
      match lastWrite dir t q with
      | some c => some c
      | none => fs.files q := by
  induction t generalizing fs with
  | nil => rfl
  | cons p rest ih =>
    obtain ⟨name, r⟩ := p
    simp only [writeAll, lastWrite]
    rw [ih]
    cases h : lastWrite dir rest q with
    | some c => rfl
    | none =>
      simp only [FS.write]
      by_cases hq : pathJoin dir name = q
      · subst hq; simp
      · rw [if_neg hq, if_neg (fun h2 => hq h2.symm)]

theorem lastWrite_eq_none (dir : String) (t : List (String × RuleRecord))
    (q : String) (hq : q ∉ t.map (fun p => pathJoin dir p.1)) :
    lastWrite dir t q = none := by
  induction t with
  | nil => rfl
  | cons p rest ih =>
    obtain ⟨name, r⟩ := p
    simp only [List.map_cons, List.mem_cons, not_or] at hq
    simp only [lastWrite, ih hq.2]
    rw [if_neg]
    exact fun h => hq.1 h.symm

theorem lastWrite_isSome (dir : String) (t : List (String × RuleRecord))
    (name : String) (r : RuleRecord) (hmem : (name, r) ∈ t) :
    ∃ c, lastWrite dir t (pathJoin dir name) = some c := by
  induction t with
  | nil => cases hmem
  | cons p rest ih =>
    obtain ⟨n2, r2⟩ := p
    rcases List.mem_cons.mp hmem with heq | hrest
    · cases heq
      simp only [lastWrite]
      cases h : lastWrite dir rest (pathJoin dir name) with
      | some c => exact ⟨c, rfl⟩
      | none => exact ⟨renderRule r, by simp⟩
    · obtain ⟨c, hc⟩ := ih hrest
      exact ⟨c, by simp only [lastWrite, hc]⟩

theorem lastWrite_of_nodup (dir : String) (t : List (String × RuleRecord))
    (name : String) (r : RuleRecord)
    (hnd : (t.map (fun p => pathJoin dir p.1)).Nodup)
    (hmem : (name, r) ∈ t) :
    lastWrite dir t (pathJoin dir name) = some (renderRule r) := by
  induction t with
  | nil => cases hmem
  | cons p rest ih =>
    obtain ⟨n2, r2⟩ := p
    simp only [List.map_cons, List.nodup_cons] at hnd
    rcases List.mem_cons.mp hmem with heq | hrest
    · cases heq
      have hnone : lastWrite dir rest (pathJoin dir name) = none :=
        lastWrite_eq_none dir rest _ hnd.1
      simp [lastWrite, hnone]
    · have := ih hnd.2 hrest
      simp only [lastWrite, this]

theorem emitLoop_ok (wr : String → Bool) (dir : String)
    (t : List (String × RuleRecord)) (fs fs2 : FS) (n : Nat)
    (h : emitLoop wr dir t fs = (fs2, Except.ok n)) :
    fs2 = writeAll dir t fs ∧ n = t.length := by
  induction t generalizing fs fs2 n with
  | nil =>
    simp only [emitLoop, Prod.mk.injEq, Except.ok.injEq] at h
    exact ⟨h.1.symm, h.2.symm⟩
  | cons p rest ih =>
    obtain ⟨name, r⟩ := p
    simp only [emitLoop] at h
    by_cases hw : wr (pathJoin dir name) = true
    · rw [if_pos hw] at h
      rcases hrec : emitLoop wr dir rest (fs.write (pathJoin dir name) (renderRule r))
        with ⟨fsr, res⟩
      rw [hrec] at h
      cases res with
      | ok m =>
        simp only [Prod.mk.injEq, Except.ok.injEq] at h
        obtain ⟨hfs, hm⟩ := ih _ _ _ hrec
        refine ⟨?_, ?_⟩
        · rw [← h.1, hfs]; rfl
        · rw [← h.2, hm]; rfl
      | error e => exact Except.noConfusion (congrArg Prod.snd h)
    · rw [if_neg hw] at h
      exact Except.noConfusion (congrArg Prod.snd h)

theorem emitLoop_all_ok (wr : String → Bool) (dir : String)
    (t : List (String × RuleRecord)) (fs : FS)
    (h : ∀ p ∈ t, wr (pathJoin dir p.1) = true) :
    emitLoop wr dir t fs = (writeAll dir t fs, Except.ok t.length) := by
  induction t generalizing fs with
  | nil => rfl
  | cons p rest ih =>
    obtain ⟨name, r⟩ := p
    have hw : wr (pathJoin dir name) = true := h (name, r) (List.mem_cons_self _ _)
    have hrest : ∀ p ∈ rest, wr (pathJoin dir p.1) = true :=
      fun p hp => h p (List.mem_cons_of_mem _ hp)
    simp only [emitLoop, if_pos hw, ih _ hrest, writeAll, List.length_cons]

theorem emitLoop_first_fail (wr : String → Bool) (dir : String)
    (t1 : List (String × RuleRecord)) (name : String) (r : RuleRecord)
    (t2 : List (String × RuleRecord)) (fs : FS)
    (h1 : ∀ p ∈ t1, wr (pathJoin dir p.1) = true)
    (h2 : wr (pathJoin dir name) = false) :
    emitLoop wr dir (t1 ++ (name, r) :: t2) fs =
      (writeAll dir t1 fs, Except.error (pathJoin dir name)) := by
  induction t1 generalizing fs with
  | nil =>
    simp only [List.nil_append, emitLoop, writeAll]
    rw [if_neg]
    simp [h2]
  | cons p t1' ih =>
    obtain ⟨n2, r2⟩ := p
    have hw : wr (pathJoin dir n2) = true := h1 (n2, r2) (List.mem_cons_self _ _)
    have h1' : ∀ p ∈ t1', wr (pathJoin dir p.1) = true :=
      fun p hp => h1 p (List.mem_cons_of_mem _ hp)
    simp only [List.cons_append, emitLoop, if_pos hw, List.append_eq,
      ih (fs.write (pathJoin dir n2) (renderRule r2)) h1', writeAll]

theorem renderRule_eq_specLayout (r : RuleRecord) :
    renderRule r = specLayout r := by
  obtain ⟨rt, fp, ds, ct⟩ := r
  have h2 : ("\n\n" : String) = "\n" ++ "\n" := rfl
  cases fp <;> cases ds <;>
    simp [renderRule, specLayout, h2, String.append_assoc]

theorem FS.ext2 (fs1 fs2 : FS) (hd : fs1.dirs = fs2.dirs)
    (hf : fs1.files = fs2.files) : fs1 = fs2 := by
  cases fs1; cases fs2; cases hd; cases hf; rfl

theorem string_append_left_cancel (a b c : String) (h : a ++ b = a ++ c) :
    b = c := by
  apply String.ext
  have hd := congrArg String.data h
  simp only [String.data_append] at hd
  exact List.append_cancel_left hd

theorem pathJoin_inj (a b c : String) (hb : startsWithSlash b = false)
    (hc : startsWithSlash c = false) (h : pathJoin a b = pathJoin a c) :
    b = c := by
  unfold pathJoin at h
  by_cases ha : a = ""
  · rwa [if_pos ha, if_pos ha] at h
  · rw [if_neg ha, if_neg ha] at h
    have hb' : ¬(startsWithSlash b = true) := by simp [hb]
    have hc' : ¬(startsWithSlash c = true) := by simp [hc]
    rw [if_neg hb', if_neg hc'] at h
    by_cases he : endsWithSlash a = true
    · rw [if_pos he, if_pos he] at h
      exact string_append_left_cancel a b c h
    · rw [if_neg he, if_neg he] at h
      exact string_append_left_cancel (a ++ "/") b c h

theorem paths_nodup (dir : String) (t : List (String × RuleRecord))
    (hn : (t.map (fun p => p.1)).Nodup)
    (hs : ∀ p ∈ t, startsWithSlash p.1 = false) :
    (t.map (fun p => pathJoin dir p.1)).Nodup := by
  have hmm : t.map (fun p => pathJoin dir p.1)
      = (t.map (fun p => p.1)).map (fun nm => pathJoin dir nm) := by
    rw [List.map_map]
    rfl
  rw [hmm]
  refine List.Nodup.map_on ?_ hn
  intro x hx y hy hxy
  rcases List.mem_map.mp hx with ⟨p, hp, hpx⟩
  rcases List.mem_map.mp hy with ⟨q, hq, hqy⟩
  subst hpx; subst hqy
  exact pathJoin_inj dir _ _ (hs p hp) (hs q hq) hxy

theorem emit_top_fst (dir : String) (t : List (String × RuleRecord)) (fs : FS) :
    (emit (fun _ => true) dir t fs).1 = writeAll dir t (makedirs fs dir) :=
  congrArg Prod.fst
    (emitLoop_all_ok (fun _ => true) dir t (makedirs fs dir) (fun _ _ => rfl))

theorem writeAll_read_of_nodup (dir : String) (t : List (String × RuleRecord))
    (name : String) (r : RuleRecord) (fs : FS)
    (hnd : (t.map (fun p => pathJoin dir p.1)).Nodup)
    (hmem : (name, r) ∈ t) :
    (writeAll dir t fs).read (pathJoin dir name) = some (renderRule r) := by
  rw [FS.read, writeAll_files_eq, lastWrite_of_nodup dir t name r hnd hmem]

theorem writeAll_read_none (dir : String) (t : List (String × RuleRecord))
    (q : String) (fs : FS) (hq : q ∉ t.map (fun p => pathJoin dir p.1)) :
    (writeAll dir t fs).read q = fs.read q := by
  rw [FS.read, writeAll_files_eq, lastWrite_eq_none dir t q hq]
  rfl

theorem writeAll_absorb (dir : String) (t : List (String × RuleRecord))
    (fsA fsB : FS)
    (h : ∀ q, lastWrite dir t q = none → fsA.files q = fsB.files q) :
    (writeAll dir t fsA).files = (writeAll dir t fsB).files := by
  funext q
  rw [writeAll_files_eq, writeAll_files_eq]
  cases hlw : lastWrite dir t q with
  | some c => rfl
  | none => exact h q hlw

/-! ### Claim theorems -/

/-- Claim C1: every record of the table is rendered with exactly the layout of
spec §4.1 — the `Rule Type:` line and blank line, then the optional
`File Pattern Matches:` line (patterns joined by comma-and-space) and blank
line, then the optional `Description:` line and blank line, then the raw
content verbatim — and every file a successful emission writes at
`targetDir/filename` reads back as exactly that rendering; in particular the
record `{filename: "x.mdc", rule_type: "Always", content: "hello\n"}` yields
exactly the bytes `"Rule Type: Always\n\nhello\n"`. -/
theorem c1_file_layout :
    (∀ r : RuleRecord, renderRule r = specLayout r)
    ∧ (∀ (wr : String → Bool) (fs fs2 : FS) (n : Nat),
        emit wr rules_dir rulesList fs = (fs2, Except.ok n) →
        ∀ p ∈ rulesList, fs2.read (pathJoin rules_dir p.1) = some (specLayout p.2))
    ∧ renderRule { rule_type := "Always", content := "hello\n" }
        = "Rule Type: Always\n\nhello\n" := by
  refine ⟨renderRule_eq_specLayout, ?_, by decide⟩
  intro wr fs fs2 n h p hp
  obtain ⟨hfs, -⟩ :=
    emitLoop_ok wr rules_dir rulesList (makedirs fs rules_dir) fs2 n h
  subst hfs
  rw [← renderRule_eq_specLayout]
  exact writeAll_read_of_nodup rules_dir rulesList p.1 p.2 _ (by decide) hp

/-- Witness for C1 at a concrete input: one successful run from the empty
filesystem, checked at the first record of the table. -/
theorem c1_file_layout_witness :
    (emit (fun _ => true) rules_dir rulesList emptyFS).1.read
        (pathJoin rules_dir (rulesList.get ⟨0, by decide⟩).1)
      = some (specLayout (rulesList.get ⟨0, by decide⟩).2) :=
  c1_file_layout.2.1 (fun _ => true) emptyFS
    (emit (fun _ => true) rules_dir rulesList emptyFS).1 rulesList.length rfl
    (rulesList.get ⟨0, by decide⟩) (rulesList.get_mem _ _)

/-- Claim C2: emission is deterministic and idempotent — the bytes of every
emitted file are a function of the table alone (runs from any two prior
filesystem states produce identical contents at every emitted path), and
running emission twice in succession yields the same final filesystem state
as running it once. -/
theorem c2_deterministic_idempotent :
    (∀ (dir : String) (t : List (String × RuleRecord)) (fs1 fs2 : FS)
        (name : String) (r : RuleRecord), (name, r) ∈ t →
        (emit (fun _ => true) dir t fs1).1.read (pathJoin dir name)
          = (emit (fun _ => true) dir t fs2).1.read (pathJoin dir name))
    ∧ (∀ (dir : String) (t : List (String × RuleRecord)) (fs : FS),
        (emit (fun _ => true) dir t (emit (fun _ => true) dir t fs).1).1
          = (emit (fun _ => true) dir t fs).1) := by
  constructor
  · intro dir t fs1 fs2 name r hmem
    rw [emit_top_fst, emit_top_fst]
    obtain ⟨c, hc⟩ := lastWrite_isSome dir t name r hmem
    rw [FS.read, FS.read, writeAll_files_eq, writeAll_files_eq, hc]
  · intro dir t fs
    rw [emit_top_fst, emit_top_fst]
    apply FS.ext2
    · funext d
      simp only [makedirs, writeAll_dirs]
      cases fs.dirs d <;> cases decide (d ∈ pathAncestors dir) <;> rfl
    · apply writeAll_absorb
      intro q hq
      show (writeAll dir t (makedirs fs dir)).files q = (makedirs fs dir).files q
      rw [writeAll_files_eq, hq]

/-- Witness for C2 at a concrete input: the first record of the hardcoded
table, emitted from two different initial filesystems. -/
theorem c2_deterministic_idempotent_witness :
    (emit (fun _ => true) rules_dir rulesList emptyFS).1.read
        (pathJoin rules_dir (rulesList.get ⟨0, by decide⟩).1)
      = (emit (fun _ => true) rules_dir rulesList
          (FS.write emptyFS "other.txt" "junk")).1.read
        (pathJoin rules_dir (rulesList.get ⟨0, by decide⟩).1) :=
  c2_deterministic_idempotent.1 rules_dir rulesList emptyFS
    (FS.write emptyFS "other.txt" "junk")
    (rulesList.get ⟨0, by decide⟩).1 (rulesList.get ⟨0, by decide⟩).2
    (rulesList.get_mem _ _)

/-- Claim C3: after a successful emission over the hardcoded table, a file
named exactly each record's key exists under the target directory. -/
theorem c3_files_exist :
    ∀ (wr : String → Bool) (fs fs2 : FS) (n : Nat),
      emit wr rules_dir rulesList fs = (fs2, Except.ok n) →
      ∀ p ∈ rulesList, ∃ c, fs2.read (pathJoin rules_dir p.1) = some c := by
  intro wr fs fs2 n h p hp
  obtain ⟨hfs, -⟩ :=
    emitLoop_ok wr rules_dir rulesList (makedirs fs rules_dir) fs2 n h
  subst hfs
  obtain ⟨c, hc⟩ := lastWrite_isSome rules_dir rulesList p.1 p.2 hp
  exact ⟨c, by rw [FS.read, writeAll_files_eq, hc]⟩

/-- Witness for C3 at a concrete input: a successful run from the empty
filesystem, checked at the first record of the table. -/
theorem c3_files_exist_witness :
    ∃ c, (emit (fun _ => true) rules_dir rulesList emptyFS).1.read
        (pathJoin rules_dir (rulesList.get ⟨0, by decide⟩).1) = some c :=
  c3_files_exist (fun _ => true) emptyFS
    (emit (fun _ => true) rules_dir rulesList emptyFS).1 rulesList.length rfl
    (rulesList.get ⟨0, by decide⟩) (rulesList.get_mem _ _)

/-- Claim C4: on success the loop's count equals the number of records, i.e.
every file was written; on a write failure the loop stops at the first failing
entry — the files before it are written, the state is otherwise untouched, and
the error names the offending path; the failure propagates to the process
boundary as a non-zero exit status (and success exits with status 0). -/
theorem c4_error_contract :
    (∀ (wr : String → Bool) (dir : String) (t : List (String × RuleRecord))
        (fs fs2 : FS) (n : Nat),
        emitLoop wr dir t fs = (fs2, Except.ok n) → n = t.length)
    ∧ (∀ (wr : String → Bool) (dir : String) (t1 : List (String × RuleRecord))
        (name : String) (r : RuleRecord) (t2 : List (String × RuleRecord))
        (fs : FS),
        (∀ p ∈ t1, wr (pathJoin dir p.1) = true) →
        wr (pathJoin dir name) = false →
        emit wr dir (t1 ++ (name, r) :: t2) fs
          = (writeAll dir t1 (makedirs fs dir), Except.error (pathJoin dir name)))
    ∧ (∀ (wr : String → Bool) (fs : FS) (e : String),
        (emit wr rules_dir rulesList fs).2 = Except.error e →
        (runScript wr fs).exitCode = 1)
    ∧ (∀ (wr : String → Bool) (fs : FS) (n : Nat),
        (emit wr rules_dir rulesList fs).2 = Except.ok n →
        (runScript wr fs).exitCode = 0) := by
  refine ⟨?_, ?_, ?_, ?_⟩
  · intro wr dir t fs fs2 n h
    exact (emitLoop_ok wr dir t fs fs2 n h).2
  · intro wr dir t1 name r t2 fs h1 h2
    exact emitLoop_first_fail wr dir t1 name r t2 (makedirs fs dir) h1 h2
  · intro wr fs e h
    rcases he : emit wr rules_dir rulesList fs with ⟨fs2, res⟩
    rw [he] at h
    have h' : res = Except.error e := h
    subst h'
    simp [runScript, he]
  · intro wr fs n h
    rcases he : emit wr rules_dir rulesList fs with ⟨fs2, res⟩
    rw [he] at h
    have h' : res = Except.ok n := h
    subst h'
    simp [runScript, he]

/-- Witness for C4 at concrete inputs: a run in which every write fails exits
with status 1, a run in which every write succeeds exits with status 0, and
the failing run reports the path of the table's first file. -/
theorem c4_error_contract_witness :
    (runScript (fun _ => false) emptyFS).exitCode = 1
    ∧ (runScript (fun _ => true) emptyFS).exitCode = 0
    ∧ (∀ p ∈ ([] : List (String × RuleRecord)),
        (fun _ => false) (pathJoin rules_dir p.1) = true) ∧
      emit (fun _ => false) rules_dir rulesList emptyFS
        = (writeAll rules_dir [] (makedirs emptyFS rules_dir),
           Except.error (pathJoin rules_dir "always.mdc")) :=
  ⟨c4_error_contract.2.2.1 (fun _ => false) emptyFS
      (pathJoin rules_dir "always.mdc") rfl,
   c4_error_contract.2.2.2 (fun _ => true) emptyFS rulesList.length rfl,
   fun p hp => absurd hp (List.not_mem_nil p),
   c4_error_contract.2.1 (fun _ => false) rules_dir []
     "always.mdc" (rulesList.get ⟨0, by decide⟩).2 (rulesList.drop 1) emptyFS
     (fun p hp => absurd hp (List.not_mem_nil p)) rfl⟩

/-- Claim C5: emission first runs `os.makedirs(dir, exist_ok=True)`: every
directory in the ancestor chain of the target (for the script's target
`.cursor/rules`: both `.cursor` and `.cursor/rules`) exists afterwards,
directories that already existed are kept and the call is idempotent (it
cannot fail on an existing directory), and the directory state after the
whole emission — even one whose very first write fails — is exactly the
state after `makedirs`, so the directory is created before any file is
written. -/
theorem c5_directory_creation :
    (∀ (fs : FS) (dir d : String), d ∈ pathAncestors dir →
        (makedirs fs dir).dirs d = true)
    ∧ (∀ fs : FS, (makedirs fs rules_dir).dirs ".cursor" = true
        ∧ (makedirs fs rules_dir).dirs ".cursor/rules" = true)
    ∧ (∀ (fs : FS) (dir : String),
        makedirs (makedirs fs dir) dir = makedirs fs dir)
    ∧ (∀ (fs : FS) (dir d : String), fs.dirs d = true →
        (makedirs fs dir).dirs d = true)
    ∧ (∀ (wr : String → Bool) (dir : String)
        (t : List (String × RuleRecord)) (fs : FS),
        (emit wr dir t fs).1.dirs = (makedirs fs dir).dirs) := by
  refine ⟨?_, ?_, ?_, ?_, ?_⟩
  · intro fs dir d hd
    simp [makedirs, hd]
  · intro fs
    constructor
    · have : (".cursor" ∈ pathAncestors rules_dir) := by decide
      simp [makedirs, this]
    · have : (".cursor/rules" ∈ pathAncestors rules_dir) := by decide
      simp [makedirs, this]
  · intro fs dir
    apply FS.ext2
    · funext d
      simp only [makedirs]
      cases fs.dirs d <;> cases decide (d ∈ pathAncestors dir) <;> rfl
    · rfl
  · intro fs dir d hd
    simp [makedirs, hd]
  · intro wr dir t fs
    exact emitLoop_fst_dirs wr dir t (makedirs fs dir)

/-- Witness for C5 at a concrete input: creating the script's rules directory
from the empty filesystem makes both `.cursor` and `.cursor/rules` exist. -/
theorem c5_directory_creation_witness :
    (".cursor/rules" ∈ pathAncestors rules_dir
      ∧ (makedirs emptyFS rules_dir).dirs ".cursor/rules" = true)
    ∧ (makedirs (FS.mk (fun _ => true) (fun _ => none)) rules_dir).dirs
        ".cursor" = true :=
  ⟨⟨by decide, c5_directory_creation.1 emptyFS rules_dir ".cursor/rules"
      (by decide)⟩,
   c5_directory_creation.2.2.2.1 (FS.mk (fun _ => true) (fun _ => none))
     rules_dir ".cursor" rfl⟩

/-- Claim C6: the emitter writes its files under a configurable target
directory — the emission depends on the directory only as the prefix of the
joined paths, so supplying any directory yields the same rendered files under
that directory — and the fixed relative path `.cursor/rules` is the default
the script itself uses. -/
theorem c6_configurable_dir :
    rules_dir = ".cursor/rules"
    ∧ (∀ (dir : String) (fs : FS), ∀ p ∈ rulesList,
        (emit (fun _ => true) dir rulesList fs).1.read (pathJoin dir p.1)
          = some (renderRule p.2)) := by
  refine ⟨rfl, ?_⟩
  intro dir fs p hp
  rw [emit_top_fst]
  exact writeAll_read_of_nodup dir rulesList p.1 p.2 _
    (paths_nodup dir rulesList (by decide) (by decide)) hp

/-- Witness for C6 at a concrete input: the same first rule file lands under
a non-default target directory `custom/rules`. -/
theorem c6_configurable_dir_witness :
    (emit (fun _ => true) "custom/rules" rulesList emptyFS).1.read
        (pathJoin "custom/rules" (rulesList.get ⟨0, by decide⟩).1)
      = some (renderRule (rulesList.get ⟨0, by decide⟩).2) :=
  c6_configurable_dir.2 "custom/rules" emptyFS
    (rulesList.get ⟨0, by decide⟩) (rulesList.get_mem _ _)

/-- Claim C7: for every prior filesystem state and every record of a table
whose emitted paths are distinct, the final content at `targetDir/filename`
is exactly the record's rendering — whatever the file contained before is
unconditionally replaced, with no merge or backup — and emission touches
nothing else: every path outside the table's emitted paths keeps its prior
file content, and every directory outside the target's ancestor chain keeps
its prior existence status. -/
theorem c7_overwrite_frame :
    ∀ (dir : String) (t : List (String × RuleRecord)) (fs : FS),
      (t.map (fun p => pathJoin dir p.1)).Nodup →
      (∀ p ∈ t, (emit (fun _ => true) dir t fs).1.read (pathJoin dir p.1)
          = some (renderRule p.2))
      ∧ (∀ q, q ∉ t.map (fun p => pathJoin dir p.1) →
          (emit (fun _ => true) dir t fs).1.read q = fs.read q)
      ∧ (∀ d, d ∉ pathAncestors dir →
          (emit (fun _ => true) dir t fs).1.dirs d = fs.dirs d) := by
  intro dir t fs hnd
  refine ⟨?_, ?_, ?_⟩
  · intro p hp
    rw [emit_top_fst]
    exact writeAll_read_of_nodup dir t p.1 p.2 _ hnd hp
  · intro q hq
    rw [emit_top_fst, writeAll_read_none dir t q _ hq]
    rfl
  · intro d hd
    rw [show (emit (fun _ => true) dir t fs).1.dirs
        = (makedirs fs dir).dirs from
        emitLoop_fst_dirs (fun _ => true) dir t (makedirs fs dir)]
    simp [makedirs, decide_eq_false hd]

/-- Witness for C7 at a concrete input: emitting the hardcoded table over a
filesystem that already holds a stale file at the first rule's path replaces
it with the rendering, while an unrelated file and an unrelated directory
are untouched. -/
theorem c7_overwrite_frame_witness :
    (rulesList.map (fun p => pathJoin rules_dir p.1)).Nodup
    ∧ (emit (fun _ => true) rules_dir rulesList
        (FS.write emptyFS (pathJoin rules_dir "always.mdc") "stale")).1.read
        (pathJoin rules_dir (rulesList.get ⟨0, by decide⟩).1)
      = some (renderRule (rulesList.get ⟨0, by decide⟩).2)
    ∧ (emit (fun _ => true) rules_dir rulesList emptyFS).1.read "README.md"
      = emptyFS.read "README.md"
    ∧ (emit (fun _ => true) rules_dir rulesList emptyFS).1.dirs "src"
      = emptyFS.dirs "src" :=
  ⟨by decide,
   (c7_overwrite_frame rules_dir rulesList
       (FS.write emptyFS (pathJoin rules_dir "always.mdc") "stale")
       (by decide)).1 (rulesList.get ⟨0, by decide⟩) (rulesList.get_mem _ _),
   (c7_overwrite_frame rules_dir rulesList emptyFS (by decide)).2.1
     "README.md" (by decide),
   (c7_overwrite_frame rules_dir rulesList emptyFS (by decide)).2.2
     "src" (by decide)⟩

/-- Claim C8: emitting an empty table is not an error — it succeeds with a
count of zero files written after creating the target directory, and the
file contents of the filesystem are left completely unchanged. -/
theorem c8_empty_table :
    ∀ (wr : String → Bool) (dir : String) (fs : FS),
      emit wr dir [] fs = (makedirs fs dir, Except.ok 0)
      ∧ (emit wr dir [] fs).1.files = fs.files :=
  fun _ _ _ => ⟨rfl, rfl⟩

/-- Claim C9: whenever the script finishes with exit status 0 it prints
exactly one line, the human-readable success confirmation, and that line
contains the target directory path as its suffix. -/
theorem c9_success_message :
    ∀ (wr : String → Bool) (fs : FS),
      (runScript wr fs).exitCode = 0 →
      (runScript wr fs).stdout
        = ["✅ Successfully created rule files in " ++ rules_dir] := by
  intro wr fs h
  rcases he : emit wr rules_dir rulesList fs with ⟨fs2, res⟩
  cases res with
  | ok n => simp [runScript, he]
  | error e =>
    have h1 : (runScript wr fs).exitCode = 1 := by simp [runScript, he]
    rw [h1] at h
    exact absurd h (by decide)

/-- Witness for C9 at a concrete input: a fully successful run from the
empty filesystem. -/
theorem c9_success_message_witness :
    (runScript (fun _ => true) emptyFS).stdout
      = ["✅ Successfully created rule files in " ++ rules_dir] :=
  c9_success_message (fun _ => true) emptyFS rfl

/-- Claim C10: the hardcoded table has exactly 7 entries whose filename keys
are unique, non-empty and free of path separators (so every emitted path sits
directly inside the rules directory and the 7 paths are distinct), every
record's content ends with a newline, a fully successful emission reports
exactly 7 files written, and every rendered file ends with a newline. (That
each record has a `rule_type` and a `content` is enforced by the record type
itself: both fields are non-optional.) -/
theorem c10_table_invariants :
    rulesList.length = 7
    ∧ (rulesList.map (fun p => p.1)).Nodup
    ∧ (∀ p ∈ rulesList, p.1 ≠ "" ∧ p.1.data.contains '/' = false
        ∧ endsWithNL p.2.content = true)
    ∧ (emit (fun _ => true) rules_dir rulesList emptyFS).2 = Except.ok 7
    ∧ (rulesList.map (fun p => pathJoin rules_dir p.1)).Nodup
    ∧ (∀ p ∈ rulesList, endsWithNL (renderRule p.2) = true) :=
  ⟨by decide, by decide, by decide, rfl, by decide, by decide⟩

/-- Witness for C10 at a concrete input: the invariants instantiated at the
first record of the table. -/
theorem c10_table_invariants_witness :
    (rulesList.get ⟨0, by decide⟩).1 ≠ ""
    ∧ endsWithNL (renderRule (rulesList.get ⟨0, by decide⟩).2) = true :=
  ⟨(c10_table_invariants.2.2.1 (rulesList.get ⟨0, by decide⟩)
      (rulesList.get_mem _ _)).1,
   c10_table_invariants.2.2.2.2.2 (rulesList.get ⟨0, by decide⟩)
     (rulesList.get_mem _ _)⟩
